import Mathlib

/-!
# CustomDeny reconciler (`main.go`)

A shallow embedding of the watch-driven reconciliation code of `main.go`:
`buildSelector`, `handleCustomDeny`, `deleteCalicoPolicy` and the event loop of
`watchCustomDeny`, together with the accessors of
`k8s.io/apimachinery/.../unstructured` that they call.

Conventions.

* A Go `interface{}` holding decoded JSON is a `Value`.  A Go
  `map[string]interface{}` is an association list; a lookup takes the first
  binding of a key.
* A Go `error` is an `Option String`; `none` is `nil`.
* A Go `map[string]string` is an `Option (List (String × String))`; `none` is
  the nil map.  The order in which `range` visits the entries is not fixed by
  the language, so it is supplied by a `RangeOrder`.
* The target store is reached through a `Client`, a record of the three calls
  the code makes (`Create`, `Patch`, `Delete`) over an explicit state.
-/

namespace CustomDeny

/-! ## Unstructured JSON values -/

/-- A decoded JSON value, as held by `unstructured.Unstructured`. A `float`
carries the bits of a `float64`; no operation of the embedded code looks at
them. -/
inductive Value where
  | null : Value
  | bool (b : Bool) : Value
  | int (n : Int) : Value
  | float (bits : Nat) : Value
  | str (s : String) : Value
  | list (xs : List Value) : Value
  | obj (fields : List (String × Value)) : Value

/-- A Go `map[string]interface{}`. -/
abbrev Fields := List (String × Value)

/-- The result triple `(value, found, err)` of the `Nested*` accessors. -/
inductive Nested (α : Type) where
  | found (a : α) : Nested α
  | missing : Nested α
  | err (msg : String) : Nested α

/-- The index expression `m[field]` with its `ok` flag. -/
def lookupField : Fields → String → Option Value
  | [], _ => none
  | (k, v) :: rest, field => if k = field then some v else lookupField rest field

/-- The accessor `unstructured.NestedFieldNoCopy(obj, fields...)`: walks the
path, reports `missing` when a key is absent or a `nil` is met on the way,
and an error when it has to descend into something that is not a map. -/
def NestedFieldNoCopy : Value → List String → Nested Value
  | val, [] => .found val
  | .null, _ :: _ => .missing
  | .obj m, field :: rest =>
    match lookupField m field with
    | none => .missing
    | some v => NestedFieldNoCopy v rest
  | _, _ :: _ => .err "accessor error"

/-- The accessor `unstructured.NestedMap(obj, fields...)`. -/
def NestedMap (obj : Fields) (fields : List String) : Nested Fields :=
  match NestedFieldNoCopy (.obj obj) fields with
  | .found (.obj m) => .found m
  | .found _ => .err "accessor error"
  | .missing => .missing
  | .err e => .err e

/-- The accessor `unstructured.NestedString(obj, fields...)`. -/
def NestedString (obj : Fields) (fields : List String) : Nested String :=
  match NestedFieldNoCopy (.obj obj) fields with
  | .found (.str s) => .found s
  | .found _ => .err "accessor error"
  | .missing => .missing
  | .err e => .err e

/-- The conversion loop of `NestedStringMap`: every value has to be a
string. -/
def toStringMap : Fields → Option (List (String × String))
  | [] => some []
  | (k, .str s) :: rest => (toStringMap rest).map ((k, s) :: ·)
  | _ :: _ => none

/-- A label mapping as it sits in an unstructured object. -/
def labelFields (labels : List (String × String)) : Fields :=
  labels.map fun kv => (kv.1, Value.str kv.2)

/-- The accessor `unstructured.NestedStringMap(obj, fields...)`. -/
def NestedStringMap (obj : Fields) (fields : List String) :
    Nested (List (String × String)) :=
  match NestedMap obj fields with
  | .found m =>
    match toStringMap m with
    | some sm => .found sm
    | none => .err "accessor error"
  | .missing => .missing
  | .err e => .err e

/-- The first result of `NestedString` under `s, _, _ := ...`: the empty
string unless the field was found. -/
def Nested.stringValue : Nested String → String
  | .found s => s
  | _ => ""

/-- The first result of `NestedStringMap` under `m, _, _ := ...`: the nil map
unless the field was found. -/
def Nested.mapValue : Nested (List (String × String)) → Option (List (String × String))
  | .found m => some m
  | _ => none

/-- The method `(*Unstructured).GetNamespace`. -/
def GetNamespace (obj : Fields) : String :=
  (NestedString obj ["metadata", "namespace"]).stringValue

/-- The method `(*Unstructured).GetName`. -/
def GetName (obj : Fields) : String :=
  (NestedString obj ["metadata", "name"]).stringValue

/-! ## `buildSelector` -/

/-- A Go `map[string]string`; `none` is the nil map. -/
abbrev StrMap := Option (List (String × String))

/-- The entries of a string map; the nil map has none. -/
def StrMap.entries : StrMap → List (String × String)
  | none => []
  | some l => l

/-- The choice the runtime makes each time a map is ranged over: some
ordering of its entries. -/
structure RangeOrder where
  order : List (String × String) → List (String × String)
  perm : ∀ m, (order m).Perm m

/-- The range order that visits the entries as they are listed. -/
def RangeOrder.listed : RangeOrder := ⟨id, fun m => List.Perm.refl m⟩

/-- The range order that visits the entries in reverse. -/
def RangeOrder.reversed : RangeOrder := ⟨List.reverse, fun m => List.reverse_perm m⟩

/-- The term `fmt.Sprintf("%s == '%s'", k, v)`. -/
def selectorTerm (kv : String × String) : String :=
  kv.1 ++ " == '" ++ kv.2 ++ "'"

/-- The function `buildSelector`: the first loop appends one term per entry
visited, the second concatenates them with `" && "`. -/
def buildSelector (ρ : RangeOrder) (labels : StrMap) : String :=
  let selectors : List String :=
    (ρ.order labels.entries).foldl (fun selectors kv => selectors ++ [selectorTerm kv]) []
  match selectors with
  | [] => "all()"
  | first :: rest => rest.foldl (fun result sel => result ++ (" && " ++ sel)) first

/-! ## The target store client -/

/-- The calls the code makes on `client.Resource(gvr).Namespace(ns)`, over
an explicit state `σ` of whatever answers them. Each returns the Go `error`
and the state after the call. -/
structure Client (σ : Type) where
  /-- The call `Create(ctx, policy, CreateOptions{})` in namespace `ns`. -/
  Create : (ns : String) → (policy : Fields) → σ → Option String × σ
  /-- The call `Patch(ctx, name, pt, data, PatchOptions{})` in namespace `ns`. -/
  Patch : (ns : String) → (name : String) → (pt : String) → (data : Value) → σ →
    Option String × σ
  /-- The call `Delete(ctx, name, DeleteOptions{})` in namespace `ns`. -/
  Delete : (ns : String) → (name : String) → σ → Option String × σ

/-- The constant `types.MergePatchType`. -/
def MergePatchType : String := "application/merge-patch+json"

/-- The expression `fmt.Sprintf("deny-%s-%s", obj.GetNamespace(), obj.GetName())`. -/
def policyName (obj : Fields) : String :=
  "deny-" ++ GetNamespace obj ++ "-" ++ GetName obj

/-- The policy document `handleCustomDeny` builds from the object and its
`spec` map (the three field reads and the `policy` literal). `ρt` and `ρs`
are the range orders of the two `buildSelector` calls. -/
def policyDocument (ρt ρs : RangeOrder) (obj spec : Fields) : Fields :=
  let sourceNamespace := (NestedString spec ["sourceNamespace"]).stringValue
  let sourceLabels := (NestedStringMap spec ["sourceLabels"]).mapValue
  let targetLabels := (NestedStringMap spec ["targetLabels"]).mapValue
  [ ("apiVersion", .str "projectcalico.org/v3"),
    ("kind", .str "NetworkPolicy"),
    ("metadata", .obj [
      ("name", .str (policyName obj)),
      ("namespace", .str (GetNamespace obj)) ]),
    ("spec", .obj [
      ("order", .int 100),
      ("selector", .str (buildSelector ρt targetLabels)),
      ("types", .list [.str "Ingress"]),
      ("ingress", .list [
        .obj [
          ("action", .str "Deny"),
          ("source", .obj [
            ("selector", .str (buildSelector ρs sourceLabels)),
            ("namespaceSelector",
              .str ("projectcalico.org/name == '" ++ sourceNamespace ++ "'")) ]) ] ]) ]) ]

/-- The index expression `policy.Object["spec"]`: `nil` when absent. -/
def indexField (m : Fields) (field : String) : Value :=
  match lookupField m field with
  | some v => v
  | none => .null

/-- The create-then-patch tail of `handleCustomDeny`, for a built policy. -/
def applyPolicy {σ : Type} (client : Client σ) (ns name : String) (policy : Fields)
    (s : σ) : Option String × σ :=
  match client.Create ns policy s with
  | (none, s1) => (none, s1)
  | (some _, s1) =>
    let patchData : Fields := [("spec", indexField policy "spec")]
    client.Patch ns name MergePatchType (.obj patchData) s1

/-- The function `handleCustomDeny`. -/
def handleCustomDeny {σ : Type} (client : Client σ) (ρt ρs : RangeOrder) (obj : Fields)
    (s : σ) : Option String × σ :=
  match NestedMap obj ["spec"] with
  | .found spec =>
    applyPolicy client (GetNamespace obj) (policyName obj) (policyDocument ρt ρs obj spec) s
  | _ => (some "spec not found in CustomDeny", s)

/-- The function `deleteCalicoPolicy`. -/
def deleteCalicoPolicy {σ : Type} (client : Client σ) (obj : Fields) (s : σ) :
    Option String × σ :=
  client.Delete (GetNamespace obj) (policyName obj) s

/-! ## The event loop of `watchCustomDeny` -/

/-- The type `watch.EventType`. -/
inductive EventType where
  | Added | Modified | Deleted | Bookmark | Error
  deriving DecidableEq

/-- The dynamic type of `event.Object`: an `*unstructured.Unstructured` or
anything else. -/
inductive RuntimeObject where
  | unstructured (obj : Fields) : RuntimeObject
  | other : RuntimeObject

/-- The type `watch.Event`. -/
structure Event where
  type : EventType
  object : RuntimeObject

/-- The counter vector `customDenyPolicies`, by `(namespace, status)`. -/
abbrev Counter := String → String → Nat

/-- The call `customDenyPolicies.WithLabelValues(ns, status).Inc()`. -/
def Counter.inc (c : Counter) (ns status : String) : Counter :=
  fun a b => if a = ns ∧ b = status then c a b + 1 else c a b

/-- What the loop acts on: the state behind the client, the outcome counter
and the lines written with `log.Printf`. -/
structure World (σ : Type) where
  store : σ
  counter : Counter
  log : List String

/-- The body of `for event := range watcher.ResultChan()`. -/
def dispatch {σ : Type} (client : Client σ) (ρt ρs : RangeOrder) (event : Event)
    (w : World σ) : World σ :=
  match event.object with
  | .other => w
  | .unstructured obj =>
    match event.type with
    | .Added | .Modified =>
      match handleCustomDeny client ρt ρs obj w.store with
      | (some e, s1) =>
        { w with store := s1,
                 log := w.log ++ ["Apply failed " ++ GetNamespace obj ++ "/" ++ GetName obj
                          ++ ": " ++ e] }
      | (none, s1) => { w with store := s1 }
    | .Deleted =>
      match deleteCalicoPolicy client obj w.store with
      | (some e, s1) =>
        { store := s1,
          log := w.log ++ ["Delete failed " ++ GetNamespace obj ++ "/" ++ GetName obj
                   ++ ": " ++ e],
          counter := w.counter.inc (GetNamespace obj) "delete_failed" }
      | (none, s1) =>
        { w with store := s1, counter := w.counter.inc (GetNamespace obj) "deleted" }
    | _ => w

/-- What the surroundings answer during a run of `watchCustomDeny`: the
result of the `k`-th `Watch` call, what the `j`-th receive on the channel of
the `k`-th stream yields (`none` once the channel is closed), and the range
orders in force while that event is handled. -/
structure WatchEnv where
  watch : Nat → Option String
  recv : Nat → Nat → Option Event
  rangeTarget : Nat → Nat → RangeOrder
  rangeSource : Nat → Nat → RangeOrder

/-- Where control stands in `watchCustomDeny`: about to call `Watch`, about to
sleep after a failed call, or receiving from the channel of an open stream. -/
inductive Pc where
  | watch | sleep | recv
  deriving DecidableEq

/-- The observable steps of the loop. -/
inductive Step where
  | openOk : Step
  | openFail : Step
  | sleep (seconds : Nat) : Step
  | dispatch (event : Event) : Step
  | stop : Step

/-- The state of the loop: program point, number of `Watch` calls made
before the current one, number of events taken from the current stream. -/
structure LoopState (σ : Type) where
  pc : Pc
  attempt : Nat
  received : Nat
  world : World σ

/-- One step of the `for` loop of `watchCustomDeny`. -/
def loopStep {σ : Type} (client : Client σ) (env : WatchEnv) (st : LoopState σ) :
    Step × LoopState σ :=
  match st.pc with
  | .watch =>
    match env.watch st.attempt with
    | some e =>
      (.openFail,
        { st with pc := .sleep,
                  world := { st.world with
                    log := st.world.log ++ ["CustomDeny watch failed: " ++ e] } })
    | none => (.openOk, { st with pc := .recv, received := 0 })
  | .sleep => (.sleep 30, { st with pc := .watch, attempt := st.attempt + 1 })
  | .recv =>
    match env.recv st.attempt st.received with
    | some event =>
      (.dispatch event,
        { st with received := st.received + 1,
                  world := dispatch client (env.rangeTarget st.attempt st.received)
                    (env.rangeSource st.attempt st.received) event st.world })
    | none => (.stop, { st with pc := .watch, attempt := st.attempt + 1 })

/-- The state in which `watchCustomDeny` is entered. -/
def loopInit {σ : Type} (w : World σ) : LoopState σ :=
  { pc := .watch, attempt := 0, received := 0, world := w }

/-- The first `n` steps of `watchCustomDeny`, with the state reached. -/
def watchCustomDeny {σ : Type} (client : Client σ) (env : WatchEnv) (w : World σ) :
    Nat → List Step × LoopState σ
  | 0 => ([], loopInit w)
  | n + 1 =>
    let r := watchCustomDeny client env w n
    let next := loopStep client env r.2
    (r.1 ++ [next.1], next.2)

/-- The step `watchCustomDeny` takes after its first `n` steps. -/
def stepAt {σ : Type} (client : Client σ) (env : WatchEnv) (w : World σ) (n : Nat) : Step :=
  (loopStep client env (watchCustomDeny client env w n).2).1

/-- What a step does to the number of open streams: a successful `Watch`
opens one, `watcher.Stop()` closes one. -/
def Step.delta : Step → Int
  | .openOk => 1
  | .stop => -1
  | _ => 0

/-- The number of streams open after a sequence of steps. -/
def openStreams (trace : List Step) : Int :=
  (trace.map Step.delta).sum

/-- What holds after any number of steps: no stream is open unless control
is receiving, and then exactly one is, opened `received + 1` steps ago and
followed by the dispatch of each event its channel has yielded. -/
def LoopInv {σ : Type} (client : Client σ) (env : WatchEnv) (w : World σ) (n : Nat) :
    Prop :=
  ((watchCustomDeny client env w n).2.pc ≠ .recv →
    openStreams (watchCustomDeny client env w n).1 = 0) ∧
  ((watchCustomDeny client env w n).2.pc = .recv →
    openStreams (watchCustomDeny client env w n).1 = 1 ∧
    ∃ m, m + 1 + (watchCustomDeny client env w n).2.received = n ∧
      stepAt client env w m = .openOk ∧
      ∀ i, i < (watchCustomDeny client env w n).2.received →
        ∃ event, env.recv (watchCustomDeny client env w n).2.attempt i = some event ∧
          stepAt client env w (m + 1 + i) = .dispatch event)

/-- A watch environment: the first `Watch` call fails, the second yields a
stream that delivers one `Deleted` event and closes, every later one a stream
that closes at once. -/
def flakyEnv (obj : Fields) : WatchEnv where
  watch k := if k = 0 then some "connection refused" else none
  recv k j := if k = 1 ∧ j = 0 then some ⟨.Deleted, .unstructured obj⟩ else none
  rangeTarget _ _ := .listed
  rangeSource _ _ := .listed

/-! ## Two target stores -/

/-- A call received by the target store. -/
inductive Call where
  | create (ns : String) (policy : Fields) : Call
  | patch (ns name pt : String) (data : Value) : Call
  | delete (ns name : String) : Call

/-- A target store of arbitrary behaviour: it records the calls it receives
and answers each one from the calls received before it and the call itself. -/
def traceClient (respond : List Call → Call → Option String) : Client (List Call) where
  Create ns policy h := (respond h (.create ns policy), h ++ [.create ns policy])
  Patch ns name pt data h := (respond h (.patch ns name pt data), h ++ [.patch ns name pt data])
  Delete ns name h := (respond h (.delete ns name), h ++ [.delete ns name])

/-- A target store as a map from `(namespace, name)` to document. -/
abbrev Store := List ((String × String) × Fields)

/-- The document stored under a key. -/
def Store.get : Store → String → String → Option Fields
  | [], _, _ => none
  | ((ns1, name1), doc) :: rest, ns, name =>
    if ns1 = ns ∧ name1 = name then some doc else Store.get rest ns name

/-- Replaces the document stored under a key. -/
def Store.set : Store → String → String → Fields → Store
  | [], _, _, _ => []
  | ((ns1, name1), doc) :: rest, ns, name, new =>
    if ns1 = ns ∧ name1 = name then ((ns1, name1), new) :: rest
    else ((ns1, name1), doc) :: Store.set rest ns name new

/-- Removes the document stored under a key. -/
def Store.erase : Store → String → String → Store
  | [], _, _ => []
  | ((ns1, name1), doc) :: rest, ns, name =>
    if ns1 = ns ∧ name1 = name then Store.erase rest ns name
    else ((ns1, name1), doc) :: Store.erase rest ns name

/-- Removes a member of a JSON object. -/
def eraseField : Fields → String → Fields
  | [], _ => []
  | (k, v) :: rest, field =>
    if k = field then eraseField rest field else (k, v) :: eraseField rest field

/-- Sets a member of a JSON object, in place when it is present. -/
def setField : Fields → String → Value → Fields
  | [], field, new => [(field, new)]
  | (k, v) :: rest, field, new =>
    if k = field then (k, new) :: rest else (k, v) :: setField rest field new

mutual
/-- JSON merge patch (RFC 7386): an object patch is merged member by member
into the target, anything else replaces it. -/
def mergePatch : Value → Value → Value
  | .obj target, .obj patch => .obj (mergeFields target patch)
  | _, .obj patch => .obj (mergeFields [] patch)
  | _, patch => patch
/-- The members of a merge patch applied in turn: `null` removes the member,
any other value is merged into it. -/
def mergeFields : Fields → Fields → Fields
  | target, [] => target
  | target, (k, .null) :: rest => mergeFields (eraseField target k) rest
  | target, (k, v) :: rest =>
    mergeFields (setField target k (mergePatch (indexField target k) v)) rest
end

/-- The map store seen through the client: `Create` fails exactly when the
key is taken, `Patch` and `Delete` fail exactly when it is absent; a patch
that succeeds stores the merge of its body into the stored document. A body
that is not an object leaves the stored document as it is. -/
def mapClient : Client Store where
  Create ns policy s :=
    let name := (NestedString policy ["metadata", "name"]).stringValue
    match s.get ns name with
    | some _ => (some "already exists", s)
    | none => (none, ((ns, name), policy) :: s)
  Patch ns name _ data s :=
    match s.get ns name with
    | none => (some "not found", s)
    | some doc =>
      match mergePatch (.obj doc) data with
      | .obj merged => (none, s.set ns name merged)
      | _ => (none, s)
  Delete ns name s :=
    match s.get ns name with
    | none => (some "not found", s)
    | some _ => (none, s.erase ns name)

/-- A client that also records the calls it passes on. -/
def recording {σ : Type} (client : Client σ) : Client (List Call × σ) where
  Create ns policy s :=
    let r := client.Create ns policy s.2
    (r.1, s.1 ++ [.create ns policy], r.2)
  Patch ns name pt data s :=
    let r := client.Patch ns name pt data s.2
    (r.1, s.1 ++ [.patch ns name pt data], r.2)
  Delete ns name s :=
    let r := client.Delete ns name s.2
    (r.1, s.1 ++ [.delete ns name], r.2)

/-- The key of the target store a call addresses: the namespace of the call
and the name given, for `Create` the name in the document's metadata. -/
def Call.key : Call → String × String
  | .create ns policy => (ns, (NestedString policy ["metadata", "name"]).stringValue)
  | .patch ns name _ _ => (ns, name)
  | .delete ns name => (ns, name)

/-! ## Example objects -/

/-- The `spec` of the object of `TestHandleCustomDeny`. -/
def testDenySpec : Fields :=
  [ ("sourceNamespace", .str "source-ns"),
    ("sourceLabels", .obj [("app", .str "source")]),
    ("targetLabels", .obj [("app", .str "target")]) ]

/-- The object of `TestHandleCustomDeny`. -/
def testDeny : Fields :=
  [ ("metadata", .obj [("name", .str "test-deny"), ("namespace", .str "test-ns")]),
    ("spec", .obj testDenySpec) ]

/-- The object of `TestDeleteCalicoPolicy`: metadata only, no `spec`. -/
def testDenyNoSpec : Fields :=
  [ ("metadata", .obj [("name", .str "test-deny"), ("namespace", .str "test-ns")]) ]

/-- The `spec` of the DenyIntent of the end-to-end scenario. -/
def blockXSpec : Fields :=
  [ ("sourceNamespace", .str "team-b"),
    ("sourceLabels", .obj [("app", .str "db")]),
    ("targetLabels", .obj [("app", .str "web")]) ]

/-- The DenyIntent of the end-to-end scenario: `block-x` in `team-a`. -/
def blockX : Fields :=
  [ ("metadata", .obj [("name", .str "block-x"), ("namespace", .str "team-a")]),
    ("spec", .obj blockXSpec) ]

/-- An object with the given namespace and name in its metadata and nothing
else. -/
def intent (ns name : String) : Fields :=
  [ ("metadata", .obj [("name", .str name), ("namespace", .str ns)]) ]

/-- The outcome counter with every cell at zero. -/
def Counter.zero : Counter := fun _ _ => 0

/-- A target store that refuses every create and accepts everything else. -/
def refuseCreate : List Call → Call → Option String
  | _, .create _ _ => some "create refused"
  | _, _ => none

/-! ## `buildSelector`: results -/

theorem foldl_append_terms (f : String × String → String) (l : List (String × String))
    (init : List String) :
    l.foldl (fun selectors kv => selectors ++ [f kv]) init = init ++ l.map f := by
  induction l generalizing init with
  | nil => simp
  | cons a l ih => simp [ih]

theorem foldl_join_eq_go (sep : String) (rest : List String) (first : String) :
    rest.foldl (fun result sel => result ++ (sep ++ sel)) first
      = String.intercalate.go first sep rest := by
  induction rest generalizing first with
  | nil => rfl
  | cons a rest ih =>
    simp only [List.foldl_cons, String.intercalate.go]
    rw [ih, String.append_assoc]

theorem buildSelector_eq (ρ : RangeOrder) (labels : StrMap) :
    buildSelector ρ labels =
      match ρ.order labels.entries with
      | [] => "all()"
      | l => " && ".intercalate (l.map selectorTerm) := by
  unfold buildSelector
  simp only [foldl_append_terms, List.nil_append]
  cases h : ρ.order labels.entries with
  | nil => rfl
  | cons a l => simp [String.intercalate, foldl_join_eq_go]

theorem perm_pair {α : Type} {l : List α} {a b : α} (h : l.Perm [a, b]) :
    l = [a, b] ∨ l = [b, a] := by
  have hl := h.length_eq
  match l, hl with
  | [x, y], _ =>
    have hx : x ∈ [a, b] := h.subset (by simp)
    have hy : y ∈ [a, b] := h.subset (by simp)
    have ha : a ∈ [x, y] := h.symm.subset (by simp)
    have hb : b ∈ [x, y] := h.symm.subset (by simp)
    simp at hx hy ha hb
    rcases hx with rfl | rfl <;> rcases hy with rfl | rfl <;> simp_all

theorem buildSelector_single (ρ : RangeOrder) (k v : String) :
    buildSelector ρ (some [(k, v)]) = k ++ " == '" ++ v ++ "'" := by
  have h1 : ρ.order [(k, v)] = [(k, v)] := List.perm_singleton.1 (ρ.perm _)
  rw [buildSelector_eq]
  show (match ρ.order [(k, v)] with
    | [] => "all()"
    | l => " && ".intercalate (l.map selectorTerm)) = _
  rw [h1]
  rfl

/-- C1: for a label mapping without entries, the empty map and the nil map
alike, `buildSelector` returns exactly `"all()"`, whatever the range order. -/
theorem buildSelector_empty (ρ : RangeOrder) (labels : StrMap)
    (h : labels.entries = []) : buildSelector ρ labels = "all()" := by
  have h0 : ρ.order labels.entries = [] := by
    rw [h]
    exact List.perm_nil.1 (ρ.perm [])
  rw [buildSelector_eq, h0]

theorem buildSelector_empty_witness :
    StrMap.entries none = [] ∧ StrMap.entries (some []) = [] ∧
      buildSelector .reversed none = "all()" :=
  ⟨rfl, rfl, buildSelector_empty .reversed none rfl⟩

/-- C2: for a non-empty label mapping `m` with unique keys, `buildSelector`
returns the terms `k == 'v'` joined by `" && "` over an ordering `l` of the
entries of `m` in which each entry occurs exactly once and nothing else
occurs; for one entry the result is exactly its term, for two entries it is
one of the two joins, in particular for `{a:1, b:2}`. -/
theorem buildSelector_nonempty (ρ : RangeOrder) (m : List (String × String))
    (hne : m ≠ []) (hkeys : (m.map Prod.fst).Nodup) :
    (∃ l : List (String × String), l.Perm m ∧ l.Nodup ∧
        buildSelector ρ (some m) = " && ".intercalate (l.map selectorTerm)) ∧
    (∀ k v, m = [(k, v)] → buildSelector ρ (some m) = k ++ " == '" ++ v ++ "'") ∧
    (∀ k1 v1 k2 v2, m = [(k1, v1), (k2, v2)] →
        buildSelector ρ (some m)
            = k1 ++ " == '" ++ v1 ++ "'" ++ " && " ++ (k2 ++ " == '" ++ v2 ++ "'") ∨
        buildSelector ρ (some m)
            = k2 ++ " == '" ++ v2 ++ "'" ++ " && " ++ (k1 ++ " == '" ++ v1 ++ "'")) ∧
    (m = [("a", "1"), ("b", "2")] →
        buildSelector ρ (some m) = "a == '1' && b == '2'" ∨
        buildSelector ρ (some m) = "b == '2' && a == '1'") := by
  have hperm : (ρ.order m).Perm m := ρ.perm m
  have hgen : ∀ l, ρ.order m = l → l ≠ [] →
      buildSelector ρ (some m) = " && ".intercalate (l.map selectorTerm) := by
    intro l hl hl0
    rw [buildSelector_eq]
    show (match ρ.order m with
      | [] => "all()"
      | l => " && ".intercalate (l.map selectorTerm)) = _
    rw [hl]
    cases l with
    | nil => exact absurd rfl hl0
    | cons a l => rfl
  have hone : ∀ k v, m = [(k, v)] → buildSelector ρ (some m) = k ++ " == '" ++ v ++ "'" := by
    intro k v hm
    have h1 : ρ.order m = [(k, v)] := by
      rw [hm] at hperm ⊢
      exact List.perm_singleton.1 hperm
    rw [hgen _ h1 (by simp)]
    rfl
  have htwo : ∀ k1 v1 k2 v2, m = [(k1, v1), (k2, v2)] →
      buildSelector ρ (some m)
          = k1 ++ " == '" ++ v1 ++ "'" ++ " && " ++ (k2 ++ " == '" ++ v2 ++ "'") ∨
      buildSelector ρ (some m)
          = k2 ++ " == '" ++ v2 ++ "'" ++ " && " ++ (k1 ++ " == '" ++ v1 ++ "'") := by
    intro k1 v1 k2 v2 hm
    have h2 : (ρ.order m).Perm [(k1, v1), (k2, v2)] := hm ▸ hperm
    rcases perm_pair h2 with h | h
    · left
      rw [hgen _ h (by simp)]
      rfl
    · right
      rw [hgen _ h (by simp)]
      rfl
  refine ⟨⟨ρ.order m, hperm, ?_, hgen _ rfl ?_⟩, hone, htwo, ?_⟩
  · exact (hperm.nodup_iff).2 (List.Nodup.of_map _ hkeys)
  · intro h0
    rw [h0] at hperm
    exact hne (List.perm_nil.1 hperm.symm)
  · intro hm
    rcases htwo "a" "1" "b" "2" hm with h | h
    · left
      rw [h]
      decide
    · right
      rw [h]
      decide

theorem buildSelector_nonempty_witness :
    buildSelector .reversed (some [("app", "test"), ("env", "prod")])
      = "env == 'prod' && app == 'test'" ∧
    ∃ l : List (String × String), l.Perm [("app", "test"), ("env", "prod")] ∧ l.Nodup ∧
      buildSelector .reversed (some [("app", "test"), ("env", "prod")])
        = " && ".intercalate (l.map selectorTerm) :=
  ⟨by decide,
    (buildSelector_nonempty .reversed [("app", "test"), ("env", "prod")]
      (by simp) (by decide)).1⟩

/-! ## `handleCustomDeny`: the document, the missing spec, create then patch -/

theorem toStringMap_labelFields (labels : List (String × String)) :
    toStringMap (labelFields labels) = some labels := by
  induction labels with
  | nil => rfl
  | cons kv rest ih =>
    show (toStringMap (labelFields rest)).map ((kv.1, kv.2) :: ·) = _
    rw [ih]
    rfl

theorem NestedMap_of_lookup {obj m : Fields} {field : String}
    (h : lookupField obj field = some (.obj m)) : NestedMap obj [field] = .found m := by
  simp [NestedMap, NestedFieldNoCopy, h]

theorem NestedString_of_lookup {obj : Fields} {field s : String}
    (h : lookupField obj field = some (.str s)) : NestedString obj [field] = .found s := by
  simp [NestedString, NestedFieldNoCopy, h]

theorem NestedStringMap_of_lookup {obj : Fields} {field : String}
    {labels : List (String × String)}
    (h : lookupField obj field = some (.obj (labelFields labels))) :
    NestedStringMap obj [field] = .found labels := by
  simp [NestedStringMap, NestedMap_of_lookup h, toStringMap_labelFields]

theorem NestedMap_not_found {obj : Fields} {field : String}
    (h : ∀ m, lookupField obj field ≠ some (.obj m)) :
    ∀ m, NestedMap obj [field] ≠ .found m := by
  intro m
  unfold NestedMap NestedFieldNoCopy
  cases hl : lookupField obj field with
  | none => simp
  | some v =>
    cases v with
    | obj fields => exact absurd hl (h fields)
    | _ => simp [NestedFieldNoCopy]

theorem handleCustomDeny_of_spec {σ : Type} (client : Client σ) (ρt ρs : RangeOrder)
    {obj spec : Fields} (h : NestedMap obj ["spec"] = .found spec) (s : σ) :
    handleCustomDeny client ρt ρs obj s
      = applyPolicy client (GetNamespace obj) (policyName obj)
          (policyDocument ρt ρs obj spec) s := by
  simp [handleCustomDeny, h]

theorem handleCustomDeny_no_spec {σ : Type} (client : Client σ) (ρt ρs : RangeOrder)
    {obj : Fields} (h : ∀ m, lookupField obj "spec" ≠ some (.obj m)) (s : σ) :
    handleCustomDeny client ρt ρs obj s = (some "spec not found in CustomDeny", s) := by
  unfold handleCustomDeny
  cases hm : NestedMap obj ["spec"] with
  | found m => exact absurd hm (NestedMap_not_found h m)
  | missing => rfl
  | err e => rfl

/-- C3: for a DenyIntent with namespace `ns`, name `n` and a spec mapping with
`sourceNamespace` `s`, `sourceLabels` `SL` and `targetLabels` `TL`, the first
call `handleCustomDeny` makes on the target store is a create in `ns` of a
document with `metadata.name = "deny-" + ns + "-" + n`,
`metadata.namespace = ns`, `spec.types = ["Ingress"]`, `spec.order = 100`,
`spec.selector = buildSelector(TL)` and `spec.ingress` one rule with action
`"Deny"` whose source has `selector = buildSelector(SL)` and
`namespaceSelector = "projectcalico.org/name == '" + s + "'"`, `s` verbatim. -/
theorem handleCustomDeny_document (respond : List Call → Call → Option String)
    (calls : List Call) (ρt ρs : RangeOrder) (obj sp : Fields) (ns n s : String)
    (SL TL : List (String × String))
    (hns : GetNamespace obj = ns) (hn : GetName obj = n)
    (hspec : lookupField obj "spec" = some (.obj sp))
    (hs : lookupField sp "sourceNamespace" = some (.str s))
    (hSL : lookupField sp "sourceLabels" = some (.obj (labelFields SL)))
    (hTL : lookupField sp "targetLabels" = some (.obj (labelFields TL))) :
    ∃ (doc : Fields) (rest : List Call),
      (handleCustomDeny (traceClient respond) ρt ρs obj calls).2
          = calls ++ Call.create ns doc :: rest ∧
      NestedFieldNoCopy (.obj doc) ["metadata", "name"]
          = .found (.str ("deny-" ++ ns ++ "-" ++ n)) ∧
      NestedFieldNoCopy (.obj doc) ["metadata", "namespace"] = .found (.str ns) ∧
      NestedFieldNoCopy (.obj doc) ["spec", "types"] = .found (.list [.str "Ingress"]) ∧
      NestedFieldNoCopy (.obj doc) ["spec", "order"] = .found (.int 100) ∧
      NestedFieldNoCopy (.obj doc) ["spec", "selector"]
          = .found (.str (buildSelector ρt (some TL))) ∧
      NestedFieldNoCopy (.obj doc) ["spec", "ingress"]
          = .found (.list [.obj [
              ("action", .str "Deny"),
              ("source", .obj [
                ("selector", .str (buildSelector ρs (some SL))),
                ("namespaceSelector", .str ("projectcalico.org/name == '" ++ s ++ "'"))])]]) := by
  have hdoc : policyDocument ρt ρs obj sp =
      [ ("apiVersion", .str "projectcalico.org/v3"),
        ("kind", .str "NetworkPolicy"),
        ("metadata", .obj [
          ("name", .str ("deny-" ++ ns ++ "-" ++ n)),
          ("namespace", .str ns) ]),
        ("spec", .obj [
          ("order", .int 100),
          ("selector", .str (buildSelector ρt (some TL))),
          ("types", .list [.str "Ingress"]),
          ("ingress", .list [
            .obj [
              ("action", .str "Deny"),
              ("source", .obj [
                ("selector", .str (buildSelector ρs (some SL))),
                ("namespaceSelector",
                  .str ("projectcalico.org/name == '" ++ s ++ "'")) ]) ] ]) ]) ] := by
    simp [policyDocument, policyName, hns, hn, NestedString_of_lookup hs,
      NestedStringMap_of_lookup hSL, NestedStringMap_of_lookup hTL, Nested.stringValue,
      Nested.mapValue]
  refine ⟨policyDocument ρt ρs obj sp, ?_, ?_, ?_⟩
  · exact match respond calls (.create ns (policyDocument ρt ρs obj sp)) with
      | none => []
      | some _ => [.patch ns (policyName obj) MergePatchType
          (.obj [("spec", indexField (policyDocument ρt ρs obj sp) "spec")])]
  · rw [handleCustomDeny_of_spec _ _ _ (NestedMap_of_lookup hspec), hns]
    unfold applyPolicy
    cases hr : respond calls (.create ns (policyDocument ρt ρs obj sp)) <;>
      simp [traceClient, hr]
  · rw [hdoc]
    simp [NestedFieldNoCopy, lookupField]

theorem handleCustomDeny_document_witness :
    ∃ (doc : Fields) (rest : List Call),
      (handleCustomDeny (traceClient refuseCreate) .listed .listed testDeny []).2
          = [] ++ Call.create "test-ns" doc :: rest ∧
      NestedFieldNoCopy (.obj doc) ["metadata", "name"]
          = .found (.str "deny-test-ns-test-deny") ∧
      NestedFieldNoCopy (.obj doc) ["spec", "selector"] = .found (.str "app == 'target'") :=
  let ⟨doc, rest, h1, h2, _, _, _, h6, _⟩ :=
    handleCustomDeny_document refuseCreate [] .listed .listed testDeny testDenySpec
      "test-ns" "test-deny" "source-ns" [("app", "source")] [("app", "target")]
      (by decide) (by decide) rfl rfl rfl rfl
  ⟨doc, rest, h1, h2, h6⟩

/-- C4: for a DenyIntent whose `spec` field is absent or is not a mapping,
`handleCustomDeny` returns the error `"spec not found in CustomDeny"` and
leaves the state behind the client as it was, whatever the client; no create
and no patch is recorded. -/
theorem handleCustomDeny_missing_spec {σ : Type} (client : Client σ)
    (ρt ρs : RangeOrder) (obj : Fields) (s : σ) (calls : List Call)
    (hspec : ∀ m, lookupField obj "spec" ≠ some (.obj m)) :
    handleCustomDeny client ρt ρs obj s = (some "spec not found in CustomDeny", s) ∧
    handleCustomDeny (recording client) ρt ρs obj (calls, s)
      = (some "spec not found in CustomDeny", (calls, s)) :=
  ⟨handleCustomDeny_no_spec client ρt ρs hspec s,
    handleCustomDeny_no_spec (recording client) ρt ρs hspec (calls, s)⟩

theorem handleCustomDeny_missing_spec_witness :
    (∀ m, lookupField testDenyNoSpec "spec" ≠ some (.obj m)) ∧
    handleCustomDeny (recording mapClient) .listed .listed testDenyNoSpec ([], [])
      = (some "spec not found in CustomDeny", ([], [])) :=
  ⟨fun _ h => (nomatch h),
    (handleCustomDeny_missing_spec mapClient .listed .listed testDenyNoSpec [] []
      (fun _ h => (nomatch h))).2⟩

/-- C5: for a DenyIntent with a mapping spec and a target store of any
behaviour, `handleCustomDeny` first calls create with the built document; when
the create succeeds it returns success and makes no further call; when the
create fails it makes exactly one more call, a merge patch in namespace `ns`
addressed to `"deny-" + ns + "-" + name` whose body has the single member
`spec` of the built document, and returns the result of that patch. -/
theorem handleCustomDeny_create_then_patch (respond : List Call → Call → Option String)
    (calls : List Call) (ρt ρs : RangeOrder) (obj sp : Fields)
    (hspec : lookupField obj "spec" = some (.obj sp)) :
    ∃ specDoc : Value,
      lookupField (policyDocument ρt ρs obj sp) "spec" = some specDoc ∧
      (respond calls (.create (GetNamespace obj) (policyDocument ρt ρs obj sp)) = none →
        handleCustomDeny (traceClient respond) ρt ρs obj calls
          = (none, calls ++ [.create (GetNamespace obj) (policyDocument ρt ρs obj sp)])) ∧
      (respond calls (.create (GetNamespace obj) (policyDocument ρt ρs obj sp)) ≠ none →
        handleCustomDeny (traceClient respond) ρt ρs obj calls
          = (respond (calls ++ [.create (GetNamespace obj) (policyDocument ρt ρs obj sp)])
                (.patch (GetNamespace obj)
                  ("deny-" ++ GetNamespace obj ++ "-" ++ GetName obj)
                  MergePatchType (.obj [("spec", specDoc)])),
             calls ++ [.create (GetNamespace obj) (policyDocument ρt ρs obj sp),
                       .patch (GetNamespace obj)
                         ("deny-" ++ GetNamespace obj ++ "-" ++ GetName obj)
                         MergePatchType (.obj [("spec", specDoc)])])) := by
  rw [handleCustomDeny_of_spec _ _ _ (NestedMap_of_lookup hspec)]
  refine ⟨indexField (policyDocument ρt ρs obj sp) "spec", ?_, ?_, ?_⟩
  · simp [policyDocument, indexField, lookupField]
  · intro hr
    simp [applyPolicy, traceClient, hr]
  · intro hr
    cases hc : respond calls (.create (GetNamespace obj) (policyDocument ρt ρs obj sp)) with
    | none => exact absurd hc hr
    | some e => simp [applyPolicy, traceClient, hc, policyName]

theorem handleCustomDeny_create_then_patch_witness :
    (handleCustomDeny (traceClient refuseCreate) .listed .listed testDeny []).1 = none ∧
    ((handleCustomDeny (traceClient refuseCreate) .listed .listed testDeny []).2.map
        Call.key) = [("test-ns", "deny-test-ns-test-deny"), ("test-ns", "deny-test-ns-test-deny")] := by
  obtain ⟨specDoc, _, _, h⟩ :=
    handleCustomDeny_create_then_patch refuseCreate [] .listed .listed testDeny
      testDenySpec rfl
  rw [h (by simp [refuseCreate])]
  exact ⟨rfl, rfl⟩

/-! ## The map store: apply twice, delete, add then delete -/

theorem Store.get_cons_self (s : Store) (ns name : String) (doc : Fields) :
    Store.get (((ns, name), doc) :: s) ns name = some doc := by
  simp [Store.get]

theorem Store.set_cons_self (s : Store) (ns name : String) (doc new : Fields) :
    Store.set (((ns, name), doc) :: s) ns name new = ((ns, name), new) :: s := by
  simp [Store.set]

theorem Store.erase_of_get_none {s : Store} {ns name : String}
    (h : s.get ns name = none) : s.erase ns name = s := by
  induction s with
  | nil => rfl
  | cons e rest ih =>
    obtain ⟨⟨ns1, name1⟩, doc⟩ := e
    by_cases hk : ns1 = ns ∧ name1 = name
    · simp [Store.get, hk] at h
    · simp only [Store.get, hk, if_false] at h
      simp [Store.erase, hk, ih h]

theorem Store.erase_cons_self {s : Store} {ns name : String} (doc : Fields)
    (h : s.get ns name = none) : Store.erase (((ns, name), doc) :: s) ns name = s := by
  simp [Store.erase, Store.erase_of_get_none h]

theorem policyDocument_name (ρt ρs : RangeOrder) (obj sp : Fields) :
    (NestedString (policyDocument ρt ρs obj sp) ["metadata", "name"]).stringValue
      = policyName obj := by
  simp [policyDocument, NestedString, NestedFieldNoCopy, lookupField, Nested.stringValue]

theorem policyDocument_merge_spec (ρt ρs : RangeOrder) (obj sp : Fields) :
    mergePatch (.obj (policyDocument ρt ρs obj sp))
        (.obj [("spec", indexField (policyDocument ρt ρs obj sp) "spec")])
      = .obj (policyDocument ρt ρs obj sp) := by
  simp [policyDocument, indexField, lookupField, mergePatch, mergeFields, setField]

theorem applyPolicy_fresh (ρt ρs : RangeOrder) (obj sp : Fields) (calls : List Call)
    (s : Store) (hfree : s.get (GetNamespace obj) (policyName obj) = none) :
    applyPolicy (recording mapClient) (GetNamespace obj) (policyName obj)
        (policyDocument ρt ρs obj sp) (calls, s)
      = (none, calls ++ [.create (GetNamespace obj) (policyDocument ρt ρs obj sp)],
          ((GetNamespace obj, policyName obj), policyDocument ρt ρs obj sp) :: s) := by
  simp [applyPolicy, recording, mapClient, policyDocument_name, hfree]

theorem applyPolicy_present (ρt ρs : RangeOrder) (obj sp : Fields) (calls : List Call)
    (s : Store) :
    applyPolicy (recording mapClient) (GetNamespace obj) (policyName obj)
        (policyDocument ρt ρs obj sp)
        (calls, ((GetNamespace obj, policyName obj), policyDocument ρt ρs obj sp) :: s)
      = (none,
          calls ++ [.create (GetNamespace obj) (policyDocument ρt ρs obj sp),
            .patch (GetNamespace obj) (policyName obj) MergePatchType
              (.obj [("spec", indexField (policyDocument ρt ρs obj sp) "spec")])],
          ((GetNamespace obj, policyName obj), policyDocument ρt ρs obj sp) :: s) := by
  simp [applyPolicy, recording, mapClient, policyDocument_name, Store.get_cons_self,
    policyDocument_merge_spec, Store.set_cons_self]

/-- C6: over the map store (create fails exactly when the key is taken, a
merge patch exactly when it is absent), for every built policy document and
every store that does not hold its key, applying the document twice in
sequence succeeds both times, the first time with the single call create, the
second time with a failed create followed by the patch, and the document
stored under the key after the second apply is the one stored after the
first, namely the built document. The two applies are what two calls of
`handleCustomDeny` on the object do when `sp` is its spec. -/
theorem applyPolicy_twice (ρt ρs : RangeOrder) (obj sp : Fields) (calls : List Call)
    (s : Store) (hfree : s.get (GetNamespace obj) (policyName obj) = none) :
    let ns := GetNamespace obj
    let name := policyName obj
    let doc := policyDocument ρt ρs obj sp
    let r1 := applyPolicy (recording mapClient) ns name doc (calls, s)
    let r2 := applyPolicy (recording mapClient) ns name doc r1.2
    (lookupField obj "spec" = some (.obj sp) →
      handleCustomDeny (recording mapClient) ρt ρs obj (calls, s) = r1 ∧
      handleCustomDeny (recording mapClient) ρt ρs obj r1.2 = r2) ∧
    r1.1 = none ∧ r1.2.1 = calls ++ [.create ns doc] ∧
    (mapClient.Create ns doc r1.2.2).1 ≠ none ∧
    r2.1 = none ∧
    r2.2.1 = calls ++ [.create ns doc] ++ [.create ns doc,
      .patch ns name MergePatchType (.obj [("spec", indexField doc "spec")])] ∧
    r1.2.2.get ns name = some doc ∧
    r2.2.2.get ns name = r1.2.2.get ns name ∧
    r2.2.2 = r1.2.2 := by
  intro ns name doc r1 r2
  have h1 : r1 = (none, calls ++ [.create ns doc], ((ns, name), doc) :: s) :=
    applyPolicy_fresh ρt ρs obj sp calls s hfree
  have h2 : r2 = (none, calls ++ [.create ns doc] ++ [.create ns doc,
      .patch ns name MergePatchType (.obj [("spec", indexField doc "spec")])],
      ((ns, name), doc) :: s) := by
    show applyPolicy (recording mapClient) ns name doc r1.2 = _
    rw [h1]
    exact applyPolicy_present ρt ρs obj sp _ s
  refine ⟨fun hspec =>
    ⟨handleCustomDeny_of_spec _ ρt ρs (NestedMap_of_lookup hspec) _,
      handleCustomDeny_of_spec _ ρt ρs (NestedMap_of_lookup hspec) _⟩, ?_⟩
  rw [h2, h1]
  refine ⟨rfl, rfl, ?_, rfl, rfl, Store.get_cons_self _ _ _ _, rfl, rfl⟩
  simp [mapClient, doc, name, ns, policyDocument_name, Store.get_cons_self]

theorem applyPolicy_twice_witness :
    Store.get [] (GetNamespace testDeny) (policyName testDeny) = none ∧
    (applyPolicy (recording mapClient) "test-ns" "deny-test-ns-test-deny"
        (policyDocument .listed .reversed testDeny testDenySpec)
        (applyPolicy (recording mapClient) "test-ns" "deny-test-ns-test-deny"
          (policyDocument .listed .reversed testDeny testDenySpec) ([], [])).2).1 = none :=
  ⟨rfl, (applyPolicy_twice .listed .reversed testDeny testDenySpec [] [] rfl).2.2.2.2.1⟩

/-! ## The dispatcher: outcome accounting -/

theorem Counter.inc_self (c : Counter) (ns status : String) :
    c.inc ns status ns status = c ns status + 1 := by
  simp [Counter.inc]

theorem Counter.inc_other (c : Counter) (ns status a b : String)
    (h : (a, b) ≠ (ns, status)) : c.inc ns status a b = c a b := by
  have h1 : ¬ (a = ns ∧ b = status) := fun ⟨h1, h2⟩ => h (by rw [h1, h2])
  simp [Counter.inc, h1]

/-- C7: for an event whose object decodes to a DenyIntent in namespace `ns`,
a `Deleted` event turns the counter into the counter with `(ns,
"delete_failed")` incremented when `deleteCalicoPolicy` returns an error and
with `(ns, "deleted")` incremented otherwise, an increment adding one to its
cell and leaving every other cell as it was; on the map store the delete
returns an error when the generated policy is absent; an `Added` or `Modified`
event leaves the counter unchanged whatever `handleCustomDeny` returns. -/
theorem dispatch_counter {σ : Type} (client : Client σ) (ρt ρs : RangeOrder)
    (obj : Fields) (w : World σ) :
    ((deleteCalicoPolicy client obj w.store).1 ≠ none →
      (dispatch client ρt ρs ⟨.Deleted, .unstructured obj⟩ w).counter
        = w.counter.inc (GetNamespace obj) "delete_failed") ∧
    ((deleteCalicoPolicy client obj w.store).1 = none →
      (dispatch client ρt ρs ⟨.Deleted, .unstructured obj⟩ w).counter
        = w.counter.inc (GetNamespace obj) "deleted") ∧
    (∀ (c : Counter) (ns status : String),
      c.inc ns status ns status = c ns status + 1 ∧
      ∀ a b, (a, b) ≠ (ns, status) → c.inc ns status a b = c a b) ∧
    (∀ s : Store, s.get (GetNamespace obj) (policyName obj) = none →
      (deleteCalicoPolicy mapClient obj s).1 ≠ none) ∧
    (dispatch client ρt ρs ⟨.Added, .unstructured obj⟩ w).counter = w.counter ∧
    (dispatch client ρt ρs ⟨.Modified, .unstructured obj⟩ w).counter = w.counter := by
  refine ⟨?_, ?_, fun c ns status => ⟨c.inc_self ns status, c.inc_other ns status⟩, ?_, ?_, ?_⟩
  · intro h
    simp only [dispatch]
    cases hd : deleteCalicoPolicy client obj w.store with
    | mk e s1 =>
      cases e with
      | none => simp [hd] at h
      | some e => rfl
  · intro h
    simp only [dispatch]
    cases hd : deleteCalicoPolicy client obj w.store with
    | mk e s1 =>
      cases e with
      | none => rfl
      | some e => simp [hd] at h
  · intro s hs
    simp [deleteCalicoPolicy, mapClient, hs]
  · simp only [dispatch]
    cases hd : handleCustomDeny client ρt ρs obj w.store with
    | mk e s1 => cases e <;> rfl
  · simp only [dispatch]
    cases hd : handleCustomDeny client ρt ρs obj w.store with
    | mk e s1 => cases e <;> rfl

theorem dispatch_counter_witness :
    (dispatch mapClient .listed .listed ⟨.Deleted, .unstructured testDenyNoSpec⟩
        ⟨[], Counter.zero, []⟩).counter "test-ns" "delete_failed" = 1 ∧
    (dispatch mapClient .listed .listed ⟨.Deleted, .unstructured testDenyNoSpec⟩
        ⟨[], Counter.zero, []⟩).counter "test-ns" "deleted" = 0 := by
  have h := (dispatch_counter mapClient .listed .listed testDenyNoSpec
    ⟨[], Counter.zero, []⟩).1 (by decide)
  rw [h]
  exact ⟨rfl, rfl⟩

theorem policyName_congr {obj obj2 : Fields} (hns : GetNamespace obj2 = GetNamespace obj)
    (hn : GetName obj2 = GetName obj) : policyName obj2 = policyName obj := by
  unfold policyName
  rw [hns, hn]

theorem deleteCalicoPolicy_present (obj doc : Fields) (calls : List Call) (s : Store)
    (ns name : String) (hns : GetNamespace obj = ns) (hname : policyName obj = name)
    (hfree : s.get ns name = none) :
    deleteCalicoPolicy (recording mapClient) obj (calls, ((ns, name), doc) :: s)
      = (none, calls ++ [.delete ns name], s) := by
  subst hns hname
  simp [deleteCalicoPolicy, recording, mapClient, Store.get_cons_self,
    Store.erase_cons_self doc hfree]

/-- C8: over the map store, for a DenyIntent `obj` with a mapping spec and a
store without a policy under its key, an `Added` event for `obj` followed by
a `Deleted` event for any object `obj2` of the same identity (same namespace
and name, whatever else it holds) makes exactly two calls, the create of the
built document named `"deny-" + ns + "-" + name` in namespace `ns` and the
delete of that name in `ns`; the store holds the document under that key in
between and ends equal to the store it started from; the counter is
unchanged after the first event and is the initial counter with `(ns,
"deleted")` incremented after the second. For `block-x` in `team-a` the
document is named `deny-team-a-block-x`, in namespace `team-a`, with selector
`app == 'web'`, source selector `app == 'db'` and namespace filter on
`team-b`. -/
theorem added_then_deleted (ρt ρs ρt2 ρs2 : RangeOrder) (obj sp obj2 : Fields)
    (w : World (List Call × Store))
    (hspec : lookupField obj "spec" = some (.obj sp))
    (hfree : w.store.2.get (GetNamespace obj) (policyName obj) = none)
    (hns2 : GetNamespace obj2 = GetNamespace obj)
    (hn2 : GetName obj2 = GetName obj) :
    let ns := GetNamespace obj
    let doc := policyDocument ρt ρs obj sp
    let w1 := dispatch (recording mapClient) ρt ρs ⟨.Added, .unstructured obj⟩ w
    let w2 := dispatch (recording mapClient) ρt2 ρs2 ⟨.Deleted, .unstructured obj2⟩ w1
    w1.store.1 = w.store.1 ++ [.create ns doc] ∧
    w1.store.2 = ((ns, "deny-" ++ ns ++ "-" ++ GetName obj), doc) :: w.store.2 ∧
    w1.store.2.get ns ("deny-" ++ ns ++ "-" ++ GetName obj) = some doc ∧
    w1.counter = w.counter ∧
    w2.store.1 = w.store.1 ++ [.create ns doc] ++
      [.delete ns ("deny-" ++ ns ++ "-" ++ GetName obj)] ∧
    w2.store.2 = w.store.2 ∧
    w2.counter = w.counter.inc ns "deleted" ∧
    (obj = blockX →
      ns = "team-a" ∧
      NestedFieldNoCopy (.obj doc) ["metadata", "name"]
        = .found (.str "deny-team-a-block-x") ∧
      NestedFieldNoCopy (.obj doc) ["metadata", "namespace"] = .found (.str "team-a") ∧
      NestedFieldNoCopy (.obj doc) ["spec", "selector"] = .found (.str "app == 'web'") ∧
      NestedFieldNoCopy (.obj doc) ["spec", "ingress"]
        = .found (.list [.obj [
            ("action", .str "Deny"),
            ("source", .obj [
              ("selector", .str "app == 'db'"),
              ("namespaceSelector", .str "projectcalico.org/name == 'team-b'")])]])) := by
  intro ns doc w1 w2
  have hw1 : w1 = { w with store := (w.store.1 ++ [.create ns doc],
      ((ns, policyName obj), doc) :: w.store.2) } := by
    show dispatch (recording mapClient) ρt ρs ⟨.Added, .unstructured obj⟩ w = _
    simp only [dispatch]
    rw [handleCustomDeny_of_spec _ _ _ (NestedMap_of_lookup hspec)]
    have := applyPolicy_fresh ρt ρs obj sp w.store.1 w.store.2 hfree
    rw [show w.store = (w.store.1, w.store.2) from rfl, this]
  have hw2 : w2 = { w with
      store := (w.store.1 ++ [.create ns doc] ++ [.delete ns (policyName obj)], w.store.2),
      counter := w.counter.inc ns "deleted" } := by
    show dispatch (recording mapClient) ρt2 ρs2 ⟨.Deleted, .unstructured obj2⟩ w1 = _
    rw [hw1]
    simp only [dispatch]
    rw [deleteCalicoPolicy_present obj2 doc _ _ ns (policyName obj) hns2
      (policyName_congr hns2 hn2) hfree, hns2]
  rw [hw2, hw1]
  refine ⟨rfl, rfl, ?_, rfl, rfl, rfl, rfl, ?_⟩
  · exact Store.get_cons_self _ _ _ _
  · intro hobj
    have hsp : sp = blockXSpec := by
      rw [hobj] at hspec
      simp [blockX, lookupField] at hspec
      exact hspec.symm
    simp only [doc, ns]
    rw [hobj, hsp]
    refine ⟨by decide, ?_, ?_, ?_, ?_⟩ <;>
      simp [policyDocument, NestedFieldNoCopy, lookupField, blockXSpec, NestedStringMap,
        NestedMap, NestedString, toStringMap, Nested.mapValue, Nested.stringValue,
        buildSelector_single] <;> decide

theorem added_then_deleted_witness :
    Store.get [] (GetNamespace blockX) (policyName blockX) = none ∧
    GetNamespace (intent "team-a" "block-x") = GetNamespace blockX ∧
    GetName (intent "team-a" "block-x") = GetName blockX ∧
    (dispatch (recording mapClient) .listed .listed
        ⟨.Deleted, .unstructured (intent "team-a" "block-x")⟩
      (dispatch (recording mapClient) .reversed .reversed ⟨.Added, .unstructured blockX⟩
        ⟨([], []), Counter.zero, []⟩)).store.2 = [] :=
  ⟨rfl, by decide, by decide,
    (added_then_deleted .reversed .reversed .listed .listed blockX blockXSpec
      (intent "team-a" "block-x") ⟨([], []), Counter.zero, []⟩ rfl rfl
      (by decide) (by decide)).2.2.2.2.2.1⟩

/-! ## `watchCustomDeny`: one stream at a time -/

theorem openStreams_append (trace : List Step) (step : Step) :
    openStreams (trace ++ [step]) = openStreams trace + step.delta := by
  simp [openStreams]

theorem watchCustomDeny_succ_trace {σ : Type} (client : Client σ) (env : WatchEnv)
    (w : World σ) (n : Nat) :
    (watchCustomDeny client env w (n + 1)).1
      = (watchCustomDeny client env w n).1 ++ [stepAt client env w n] := rfl

theorem watchCustomDeny_succ_state {σ : Type} (client : Client σ) (env : WatchEnv)
    (w : World σ) (n : Nat) :
    (watchCustomDeny client env w (n + 1)).2
      = (loopStep client env (watchCustomDeny client env w n).2).2 := rfl

/-- The five ways a step of the loop can go. -/
theorem loopStep_cases {σ : Type} (client : Client σ) (env : WatchEnv) (st : LoopState σ) :
    (st.pc = .watch ∧ (∃ e, env.watch st.attempt = some e) ∧
      (loopStep client env st).1 = .openFail ∧
      (loopStep client env st).2.pc = .sleep ∧
      (loopStep client env st).2.attempt = st.attempt) ∨
    (st.pc = .watch ∧ env.watch st.attempt = none ∧
      (loopStep client env st).1 = .openOk ∧
      (loopStep client env st).2.pc = .recv ∧
      (loopStep client env st).2.attempt = st.attempt ∧
      (loopStep client env st).2.received = 0) ∨
    (st.pc = .sleep ∧
      (loopStep client env st).1 = .sleep 30 ∧
      (loopStep client env st).2.pc = .watch ∧
      (loopStep client env st).2.attempt = st.attempt + 1) ∨
    (st.pc = .recv ∧
      (∃ event, env.recv st.attempt st.received = some event ∧
        (loopStep client env st).1 = .dispatch event) ∧
      (loopStep client env st).2.pc = .recv ∧
      (loopStep client env st).2.attempt = st.attempt ∧
      (loopStep client env st).2.received = st.received + 1) ∨
    (st.pc = .recv ∧ env.recv st.attempt st.received = none ∧
      (loopStep client env st).1 = .stop ∧
      (loopStep client env st).2.pc = .watch ∧
      (loopStep client env st).2.attempt = st.attempt + 1) := by
  unfold loopStep
  cases hpc : st.pc with
  | watch =>
    cases hw : env.watch st.attempt with
    | none => simp
    | some e => simp
  | sleep => simp
  | recv =>
    cases hr : env.recv st.attempt st.received with
    | none => simp
    | some event => simp

theorem loopInv {σ : Type} (client : Client σ) (env : WatchEnv) (w : World σ) (n : Nat) :
    LoopInv client env w n := by
  induction n with
  | zero =>
    refine ⟨fun _ => rfl, fun h => ?_⟩
    exact absurd h (by simp [watchCustomDeny, loopInit])
  | succ n ih =>
    obtain ⟨ih0, ih1⟩ := ih
    unfold LoopInv
    rw [watchCustomDeny_succ_trace, watchCustomDeny_succ_state, openStreams_append]
    have hstep : stepAt client env w n
        = (loopStep client env (watchCustomDeny client env w n).2).1 := rfl
    rcases loopStep_cases client env (watchCustomDeny client env w n).2 with
      ⟨hpc, _, hs, hpc2, _⟩ | ⟨hpc, _, hs, hpc2, hat, hrc⟩ | ⟨hpc, hs, hpc2, _⟩ |
      ⟨hpc, ⟨event, hev, hs⟩, hpc2, hat, hrc⟩ | ⟨hpc, _, hs, hpc2, _⟩
    · rw [hstep, hs, hpc2, ih0 (by simp [hpc])]
      simp [Step.delta]
    · rw [hstep, hs, hpc2, hrc, ih0 (by simp [hpc])]
      refine ⟨fun h => absurd rfl h, fun _ => ⟨by simp [Step.delta], n, by omega, ?_, ?_⟩⟩
      · rw [hstep, hs]
      · intro i hi
        omega
    · rw [hstep, hs, hpc2, ih0 (by simp [hpc])]
      simp [Step.delta]
    · obtain ⟨hopen, m, hm, hmo, hdis⟩ := ih1 hpc
      rw [hstep, hs, hpc2, hrc, hat, hopen]
      refine ⟨fun h => absurd rfl h, fun _ => ⟨by simp [Step.delta], m, by omega, hmo, ?_⟩⟩
      intro i hi
      by_cases hlt : i < (watchCustomDeny client env w n).2.received
      · exact hdis i hlt
      · have hi2 : i = (watchCustomDeny client env w n).2.received := by omega
        refine ⟨event, by rw [hi2]; exact hev, ?_⟩
        have hn : m + 1 + i = n := by omega
        rw [hn, hstep, hs]
    · obtain ⟨hopen, _⟩ := ih1 hpc
      rw [hstep, hs, hpc2, hopen]
      simp [Step.delta]

theorem trace_length {σ : Type} (client : Client σ) (env : WatchEnv) (w : World σ)
    (n : Nat) : (watchCustomDeny client env w n).1.length = n := by
  induction n with
  | zero => rfl
  | succ n ih => rw [watchCustomDeny_succ_trace, List.length_append, ih]; rfl

/-- C9: in every run of `watchCustomDeny`, after any number `n` of steps:
the loop has taken `n` steps and takes a further one (it never exits); zero
or one stream is open; when the next step is an open attempt no stream is
open; when the next step is a successful open exactly one stream is open
after it; when the next step stops the stream, that stream was opened by a
successful attempt `j + 1` steps earlier, the `j` steps in between dispatched
the events its channel yielded, the channel is drained, no stream is open
after the stop and the step after it is an open attempt; when the next step
is a failed open attempt, the step after it is a sleep of 30 seconds and the
one after that an open attempt. -/
theorem watchCustomDeny_one_stream {σ : Type} (client : Client σ) (env : WatchEnv)
    (w : World σ) (n : Nat) :
    ((watchCustomDeny client env w n).1.length = n ∧
      (watchCustomDeny client env w (n + 1)).1
        = (watchCustomDeny client env w n).1 ++ [stepAt client env w n]) ∧
    (openStreams (watchCustomDeny client env w n).1 = 0 ∨
      openStreams (watchCustomDeny client env w n).1 = 1) ∧
    (stepAt client env w n = .openOk ∨ stepAt client env w n = .openFail →
      openStreams (watchCustomDeny client env w n).1 = 0) ∧
    (stepAt client env w n = .openOk →
      openStreams (watchCustomDeny client env w (n + 1)).1 = 1) ∧
    (stepAt client env w n = .stop →
      (∃ m j, m + 1 + j = n ∧ stepAt client env w m = .openOk ∧
        (∀ i, i < j → ∃ event,
          env.recv (watchCustomDeny client env w n).2.attempt i = some event ∧
          stepAt client env w (m + 1 + i) = .dispatch event) ∧
        env.recv (watchCustomDeny client env w n).2.attempt j = none) ∧
      openStreams (watchCustomDeny client env w (n + 1)).1 = 0 ∧
      (stepAt client env w (n + 1) = .openOk ∨ stepAt client env w (n + 1) = .openFail)) ∧
    (stepAt client env w n = .openFail →
      stepAt client env w (n + 1) = .sleep 30 ∧
      (stepAt client env w (n + 2) = .openOk ∨ stepAt client env w (n + 2) = .openFail)) := by
  obtain ⟨inv0, inv1⟩ := loopInv client env w n
  have hstep : ∀ k, stepAt client env w k
      = (loopStep client env (watchCustomDeny client env w k).2).1 := fun _ => rfl
  have hopenAt : ∀ k, (watchCustomDeny client env w k).2.pc = .watch →
      stepAt client env w k = .openOk ∨ stepAt client env w k = .openFail := by
    intro k hk
    rcases loopStep_cases client env (watchCustomDeny client env w k).2 with
      ⟨_, _, hs, _⟩ | ⟨_, _, hs, _⟩ | ⟨hpc, _⟩ | ⟨hpc, _⟩ | ⟨hpc, _⟩
    · exact Or.inr (by rw [hstep, hs])
    · exact Or.inl (by rw [hstep, hs])
    · rw [hk] at hpc; cases hpc
    · rw [hk] at hpc; cases hpc
    · rw [hk] at hpc; cases hpc
  refine ⟨⟨trace_length client env w n, rfl⟩, ?_, ?_, ?_, ?_, ?_⟩
  · by_cases h : (watchCustomDeny client env w n).2.pc = .recv
    · exact Or.inr (inv1 h).1
    · exact Or.inl (inv0 h)
  · intro h
    apply inv0
    intro hpc
    rcases loopStep_cases client env (watchCustomDeny client env w n).2 with
      ⟨hpc1, _⟩ | ⟨hpc1, _⟩ | ⟨hpc1, _⟩ | ⟨_, ⟨event, _, hs⟩, _⟩ | ⟨_, _, hs, _⟩
    · rw [hpc] at hpc1; cases hpc1
    · rw [hpc] at hpc1; cases hpc1
    · rw [hpc] at hpc1; cases hpc1
    · rw [hstep, hs] at h
      rcases h with h | h <;> cases h
    · rw [hstep, hs] at h
      rcases h with h | h <;> cases h
  · intro h
    rcases loopStep_cases client env (watchCustomDeny client env w n).2 with
      ⟨_, _, hs, _⟩ | ⟨_, _, _, hpc2, _⟩ | ⟨_, hs, _⟩ | ⟨_, ⟨event, _, hs⟩, _⟩ |
      ⟨_, _, hs, _⟩
    · rw [hstep, hs] at h; cases h
    · exact ((loopInv client env w (n + 1)).2
        (by rw [watchCustomDeny_succ_state]; exact hpc2)).1
    · rw [hstep, hs] at h; cases h
    · rw [hstep, hs] at h; cases h
    · rw [hstep, hs] at h; cases h
  · intro h
    rcases loopStep_cases client env (watchCustomDeny client env w n).2 with
      ⟨_, _, hs, _⟩ | ⟨_, _, hs, _⟩ | ⟨_, hs, _⟩ | ⟨_, ⟨event, _, hs⟩, _⟩ |
      ⟨hpc, hnone, _, hpc2, _⟩
    · rw [hstep, hs] at h; cases h
    · rw [hstep, hs] at h; cases h
    · rw [hstep, hs] at h; cases h
    · rw [hstep, hs] at h; cases h
    · obtain ⟨_, m, hm, hmo, hdis⟩ := inv1 hpc
      have hpc3 : (watchCustomDeny client env w (n + 1)).2.pc = .watch := by
        rw [watchCustomDeny_succ_state]; exact hpc2
      refine ⟨⟨m, (watchCustomDeny client env w n).2.received, hm, hmo, hdis, hnone⟩,
        ?_, hopenAt (n + 1) hpc3⟩
      exact (loopInv client env w (n + 1)).1 (by rw [hpc3]; decide)
  · intro h
    rcases loopStep_cases client env (watchCustomDeny client env w n).2 with
      ⟨_, _, _, hpc2, _⟩ | ⟨_, _, hs, _⟩ | ⟨_, hs, _⟩ | ⟨_, ⟨event, _, hs⟩, _⟩ |
      ⟨_, _, hs, _⟩
    · have hpc3 : (watchCustomDeny client env w (n + 1)).2.pc = .sleep := by
        rw [watchCustomDeny_succ_state]; exact hpc2
      rcases loopStep_cases client env (watchCustomDeny client env w (n + 1)).2 with
        ⟨hpc, _⟩ | ⟨hpc, _⟩ | ⟨_, hs, hpc4, _⟩ | ⟨hpc, _⟩ | ⟨hpc, _⟩
      · rw [hpc3] at hpc; cases hpc
      · rw [hpc3] at hpc; cases hpc
      · refine ⟨by rw [hstep, hs], hopenAt (n + 2) ?_⟩
        rw [watchCustomDeny_succ_state]; exact hpc4
      · rw [hpc3] at hpc; cases hpc
      · rw [hpc3] at hpc; cases hpc
    · rw [hstep, hs] at h; cases h
    · rw [hstep, hs] at h; cases h
    · rw [hstep, hs] at h; cases h
    · rw [hstep, hs] at h; cases h

theorem watchCustomDeny_one_stream_witness :
    stepAt mapClient (flakyEnv testDenyNoSpec) ⟨[], Counter.zero, []⟩ 0 = .openFail ∧
    stepAt mapClient (flakyEnv testDenyNoSpec) ⟨[], Counter.zero, []⟩ 1 = .sleep 30 ∧
    stepAt mapClient (flakyEnv testDenyNoSpec) ⟨[], Counter.zero, []⟩ 2 = .openOk ∧
    stepAt mapClient (flakyEnv testDenyNoSpec) ⟨[], Counter.zero, []⟩ 4 = .stop ∧
    openStreams (watchCustomDeny mapClient (flakyEnv testDenyNoSpec)
      ⟨[], Counter.zero, []⟩ 5).1 = 0 :=
  have h0 : stepAt mapClient (flakyEnv testDenyNoSpec) ⟨[], Counter.zero, []⟩ 0
      = .openFail := rfl
  have h4 : stepAt mapClient (flakyEnv testDenyNoSpec) ⟨[], Counter.zero, []⟩ 4
      = .stop := rfl
  ⟨h0,
    ((watchCustomDeny_one_stream mapClient (flakyEnv testDenyNoSpec)
      ⟨[], Counter.zero, []⟩ 0).2.2.2.2.2 h0).1,
    rfl, h4,
    ((watchCustomDeny_one_stream mapClient (flakyEnv testDenyNoSpec)
      ⟨[], Counter.zero, []⟩ 4).2.2.2.2.1 h4).2.1⟩

/-! ## The key of a generated policy -/

theorem append_left_cancel (p a b : String) (h : p ++ a = p ++ b) : a = b := by
  have h1 := congrArg String.data h
  simp only [String.data_append] at h1
  exact String.ext (List.append_cancel_left h1)

theorem policyName_inj {obj1 obj2 : Fields} (hns : GetNamespace obj1 = GetNamespace obj2)
    (h : policyName obj1 = policyName obj2) : GetName obj1 = GetName obj2 := by
  unfold policyName at h
  rw [hns] at h
  exact append_left_cancel _ _ _ h

theorem Store.get_cons_ne (s : Store) (ns name ns2 name2 : String) (doc : Fields)
    (h : (ns, name) ≠ (ns2, name2)) :
    Store.get (((ns, name), doc) :: s) ns2 name2 = s.get ns2 name2 := by
  have h1 : ¬ (ns = ns2 ∧ name = name2) := fun ⟨h1, h2⟩ => h (by rw [h1, h2])
  simp [Store.get, h1]

theorem Store.get_set_ne (s : Store) (ns name ns2 name2 : String) (new : Fields)
    (h : (ns, name) ≠ (ns2, name2)) :
    (s.set ns name new).get ns2 name2 = s.get ns2 name2 := by
  have h1 : ¬ (ns = ns2 ∧ name = name2) := fun ⟨h1, h2⟩ => h (by rw [h1, h2])
  induction s with
  | nil => rfl
  | cons e rest ih =>
    obtain ⟨⟨ns1, name1⟩, doc⟩ := e
    by_cases hk : ns1 = ns ∧ name1 = name
    · obtain ⟨rfl, rfl⟩ := hk
      simp [Store.set, Store.get, h1]
    · simp only [Store.set, hk, if_false, Store.get, ih]

theorem Store.get_erase_ne (s : Store) (ns name ns2 name2 : String)
    (h : (ns, name) ≠ (ns2, name2)) :
    (s.erase ns name).get ns2 name2 = s.get ns2 name2 := by
  have h1 : ¬ (ns = ns2 ∧ name = name2) := fun ⟨h1, h2⟩ => h (by rw [h1, h2])
  induction s with
  | nil => rfl
  | cons e rest ih =>
    obtain ⟨⟨ns1, name1⟩, doc⟩ := e
    by_cases hk : ns1 = ns ∧ name1 = name
    · obtain ⟨rfl, rfl⟩ := hk
      simp [Store.erase, Store.get, h1, ih]
    · simp only [Store.erase, hk, if_false, Store.get, ih]

theorem applyPolicy_mapClient_get (ρt ρs : RangeOrder) (obj sp : Fields) (s : Store)
    (ns2 name2 : String) (h : (GetNamespace obj, policyName obj) ≠ (ns2, name2)) :
    (applyPolicy mapClient (GetNamespace obj) (policyName obj)
        (policyDocument ρt ρs obj sp) s).2.get ns2 name2 = s.get ns2 name2 := by
  unfold applyPolicy
  simp only [mapClient, policyDocument_name]
  cases hg : s.get (GetNamespace obj) (policyName obj) with
  | none => exact Store.get_cons_ne _ _ _ _ _ _ h
  | some doc =>
    simp only [hg]
    split
    · exact Store.get_set_ne _ _ _ _ _ _ h
    · rfl

theorem handleCustomDeny_mapClient_get (ρt ρs : RangeOrder) (obj : Fields) (s : Store)
    (ns2 name2 : String) (h : (GetNamespace obj, policyName obj) ≠ (ns2, name2)) :
    (handleCustomDeny mapClient ρt ρs obj s).2.get ns2 name2 = s.get ns2 name2 := by
  unfold handleCustomDeny
  cases hm : NestedMap obj ["spec"] with
  | found sp => exact applyPolicy_mapClient_get ρt ρs obj sp s ns2 name2 h
  | missing => rfl
  | err e => rfl

theorem deleteCalicoPolicy_mapClient_get (obj : Fields) (s : Store)
    (ns2 name2 : String) (h : (GetNamespace obj, policyName obj) ≠ (ns2, name2)) :
    (deleteCalicoPolicy mapClient obj s).2.get ns2 name2 = s.get ns2 name2 := by
  unfold deleteCalicoPolicy
  simp only [mapClient]
  cases hg : s.get (GetNamespace obj) (policyName obj) with
  | none => rfl
  | some doc => exact Store.get_erase_ne _ _ _ _ _ h

theorem handleCustomDeny_calls_key (respond : List Call → Call → Option String)
    (calls : List Call) (ρt ρs : RangeOrder) (obj : Fields) :
    ∀ c ∈ (handleCustomDeny (traceClient respond) ρt ρs obj calls).2.drop calls.length,
      c.key = (GetNamespace obj, policyName obj) := by
  unfold handleCustomDeny
  cases hm : NestedMap obj ["spec"] with
  | found sp =>
    simp only [applyPolicy, traceClient]
    cases hr : respond calls (.create (GetNamespace obj) (policyDocument ρt ρs obj sp)) with
    | none => simp [Call.key, policyDocument_name]
    | some e => simp [Call.key, policyDocument_name]
  | missing => simp
  | err e => simp

/-- C10: two DenyIntents with different identities `(namespace, name)` have
different keys `(namespace, "deny-" + namespace + "-" + name)`; every call
`handleCustomDeny` and `deleteCalicoPolicy` make for an intent addresses the
key of that intent; and on the map store neither changes what is stored under
the key of the other intent. The names alone can coincide: `("a-b", "c")` and
`("a", "b-c")` both give `"deny-a-b-c"`. -/
theorem policy_key_injective (obj1 obj2 : Fields)
    (h : (GetNamespace obj1, GetName obj1) ≠ (GetNamespace obj2, GetName obj2)) :
    (GetNamespace obj1, "deny-" ++ GetNamespace obj1 ++ "-" ++ GetName obj1)
      ≠ (GetNamespace obj2, "deny-" ++ GetNamespace obj2 ++ "-" ++ GetName obj2) ∧
    (∀ (respond : List Call → Call → Option String) (calls : List Call)
        (ρt ρs : RangeOrder),
      ∀ c ∈ (handleCustomDeny (traceClient respond) ρt ρs obj1 calls).2.drop calls.length,
        c.key = (GetNamespace obj1, "deny-" ++ GetNamespace obj1 ++ "-" ++ GetName obj1)) ∧
    (∀ (respond : List Call → Call → Option String) (calls : List Call),
      (deleteCalicoPolicy (traceClient respond) obj1 calls).2
        = calls ++ [.delete (GetNamespace obj1)
            ("deny-" ++ GetNamespace obj1 ++ "-" ++ GetName obj1)]) ∧
    (∀ (ρt ρs : RangeOrder) (s : Store),
      (handleCustomDeny mapClient ρt ρs obj1 s).2.get (GetNamespace obj2)
          ("deny-" ++ GetNamespace obj2 ++ "-" ++ GetName obj2)
        = s.get (GetNamespace obj2) ("deny-" ++ GetNamespace obj2 ++ "-" ++ GetName obj2)) ∧
    (∀ s : Store,
      (deleteCalicoPolicy mapClient obj1 s).2.get (GetNamespace obj2)
          ("deny-" ++ GetNamespace obj2 ++ "-" ++ GetName obj2)
        = s.get (GetNamespace obj2) ("deny-" ++ GetNamespace obj2 ++ "-" ++ GetName obj2)) ∧
    (policyName (intent "a-b" "c") = "deny-a-b-c" ∧
      policyName (intent "a" "b-c") = "deny-a-b-c") := by
  have hkey : (GetNamespace obj1, policyName obj1) ≠ (GetNamespace obj2, policyName obj2) := by
    intro hk
    have h1 : GetNamespace obj1 = GetNamespace obj2 := congrArg Prod.fst hk
    have h2 : policyName obj1 = policyName obj2 := congrArg Prod.snd hk
    exact h (by rw [h1, policyName_inj h1 h2])
  refine ⟨hkey, ?_, ?_, ?_, ?_, by decide, by decide⟩
  · intro respond calls ρt ρs
    exact handleCustomDeny_calls_key respond calls ρt ρs obj1
  · intro respond calls
    rfl
  · intro ρt ρs s
    exact handleCustomDeny_mapClient_get ρt ρs obj1 s _ _ hkey
  · intro s
    exact deleteCalicoPolicy_mapClient_get obj1 s _ _ hkey

theorem policy_key_injective_witness :
    (GetNamespace (intent "a-b" "c"), GetName (intent "a-b" "c"))
      ≠ (GetNamespace (intent "a" "b-c"), GetName (intent "a" "b-c")) ∧
    ("a-b", "deny-a-b-c") ≠ ("a", "deny-a-b-c") :=
  ⟨by decide, (policy_key_injective (intent "a-b" "c") (intent "a" "b-c") (by decide)).1⟩

end CustomDeny
